import Mathlib

/-!
Verification of the contribution-orchestration core of the mpc-phase2-suite
repository against its natural-language specification.

The embedding below translates the relevant functions of
`packages/phase2cli/src/lib/utils.ts` into Lean:

* `getSecondsMinutesHoursFromMillis` (utils.ts lines 162-183) — the timeout
  guard's millisecond decomposition.  JavaScript numbers are modelled as
  rationals (`ℚ`); `Math.floor` is `Int.floor` and the JavaScript `%`
  operator (truncated remainder, sign of the dividend) is `Int.tmod`.
* `formatZkeyIndex` (utils.ts lines 411-419) together with the constant
  `firstZkeyIndex = "00000"` from `lib/constants.ts`.
* `makeContribution` (utils.ts lines 919-1170) — the contribution state
  machine.  The external calls (download, snarkjs compute, upload CFs,
  verification CF) are modelled as emitted trace events; console/spinner
  output is not modelled.
* `multiPartUpload` (utils.ts lines 268-351) — the resumable chunked
  upload.  The storage helpers it calls (`openMultiPartUpload`,
  `getChunksAndPreSignedUrls`, `uploadParts`, `closeMultiPartUpload`,
  from `lib/storage.ts`, which is not part of the sources) are modelled
  from the spec, as documented on each definition.
-/

/-- The `Timing` record returned by `getSecondsMinutesHoursFromMillis`
(`types/index.ts`, fields `seconds`, `minutes`, `hours`, `days`). -/
structure Timing where
  seconds : Int
  minutes : Int
  hours : Int
  days : Int
deriving DecidableEq, Repr

/-- JavaScript's `%` on numbers whose operands are integers: truncated
remainder, taking the sign of the dividend. -/
def jsMod (a b : Int) : Int := Int.tmod a b

/-- `let delta = millis / 1000` (utils.ts line 164).  JavaScript `/` is exact
here in the rational model. -/
def millisDelta0 (millis : ℚ) : ℚ := millis / 1000

/-- `const days = Math.floor(delta / 86400)` (utils.ts line 166). -/
def millisDays (millis : ℚ) : Int := ⌊millisDelta0 millis / 86400⌋

/-- `delta -= days * 86400` (utils.ts line 167). -/
def millisDelta1 (millis : ℚ) : ℚ := millisDelta0 millis - (millisDays millis : ℚ) * 86400

/-- `const hours = Math.floor(delta / 3600) % 24` (utils.ts line 169). -/
def millisHoursRaw (millis : ℚ) : Int := jsMod ⌊millisDelta1 millis / 3600⌋ 24

/-- `delta -= hours * 3600` (utils.ts line 170). -/
def millisDelta2 (millis : ℚ) : ℚ := millisDelta1 millis - (millisHoursRaw millis : ℚ) * 3600

/-- `const minutes = Math.floor(delta / 60) % 60` (utils.ts line 172). -/
def millisMinutesRaw (millis : ℚ) : Int := jsMod ⌊millisDelta2 millis / 60⌋ 60

/-- `delta -= minutes * 60` (utils.ts line 173). -/
def millisDelta3 (millis : ℚ) : ℚ := millisDelta2 millis - (millisMinutesRaw millis : ℚ) * 60

/-- `const seconds = Math.floor(delta) % 60` (utils.ts line 175). -/
def millisSecondsRaw (millis : ℚ) : Int := jsMod ⌊millisDelta3 millis⌋ 60

/-- `getSecondsMinutesHoursFromMillis` (utils.ts lines 162-183), including
the defensive clamps on the returned record (lines 178-180). -/
def getSecondsMinutesHoursFromMillis (millis : ℚ) : Timing :=
  { seconds := if millisSecondsRaw millis ≥ 60 then 59 else millisSecondsRaw millis
    minutes := if millisMinutesRaw millis ≥ 60 then 59 else millisMinutesRaw millis
    hours := if millisHoursRaw millis ≥ 24 then 23 else millisHoursRaw millis
    days := millisDays millis }

/-- The decomposition algorithm as the spec words it (spec §4.3): convert the
millisecond delta to whole seconds, then successively extract days
(`delta/86400`), hours (`remaining/3600 mod 24`), minutes
(`remaining/60 mod 60`), seconds (`remainder mod 60`). -/
def specTimeDecomposition (millis : ℚ) : Timing :=
  let totalSeconds : Int := ⌊millis / 1000⌋
  let days := totalSeconds / 86400
  let remAfterDays := totalSeconds % 86400
  let hours := remAfterDays / 3600 % 24
  let remAfterHours := remAfterDays % 3600
  let minutes := remAfterHours / 60 % 60
  let seconds := remAfterHours % 60
  ⟨seconds, minutes, hours, days⟩

lemma floor_div_pos_int (a : ℚ) (n : ℤ) (hn : 0 < n) : ⌊a / (n : ℚ)⌋ = ⌊a⌋ / n := by
  have hnq : (0 : ℚ) < (n : ℚ) := by exact_mod_cast hn
  have h1 : n * (⌊a⌋ / n) + ⌊a⌋ % n = ⌊a⌋ := Int.ediv_add_emod _ _
  have h2 : 0 ≤ ⌊a⌋ % n := Int.emod_nonneg _ (ne_of_gt hn)
  have h3 : ⌊a⌋ % n < n := Int.emod_lt_of_pos _ hn
  rw [Int.floor_eq_iff]
  constructor
  · rw [le_div_iff₀ hnq]
    have hmul : ((⌊a⌋ / n) * n : ℤ) ≤ ⌊a⌋ := by
      have hcomm : (⌊a⌋ / n) * n = n * (⌊a⌋ / n) := by ring
      omega
    calc ((⌊a⌋ / n : ℤ) : ℚ) * (n : ℚ) = (((⌊a⌋ / n) * n : ℤ) : ℚ) := by push_cast; ring
    _ ≤ ((⌊a⌋ : ℤ) : ℚ) := by exact_mod_cast hmul
    _ ≤ a := Int.floor_le a
  · rw [div_lt_iff₀ hnq]
    have hlt : (⌊a⌋ : ℤ) + 1 ≤ (⌊a⌋ / n + 1) * n := by
      have hexp : (⌊a⌋ / n + 1) * n = n * (⌊a⌋ / n) + n := by ring
      omega
    have hq : ((⌊a⌋ + 1 : ℤ) : ℚ) ≤ (((⌊a⌋ / n + 1) * n : ℤ) : ℚ) := by exact_mod_cast hlt
    push_cast at hq
    exact lt_of_lt_of_le (Int.lt_floor_add_one a) hq

/-- Abbreviation used throughout: the whole-second count of the input. -/
def totalSecs (millis : ℚ) : Int := ⌊millis / 1000⌋

lemma millisDays_eq (millis : ℚ) : millisDays millis = totalSecs millis / 86400 := by
  have h := floor_div_pos_int (millisDelta0 millis) 86400 (by norm_num)
  rw [millisDays, totalSecs, ← millisDelta0]
  rw [show ((86400 : ℤ) : ℚ) = (86400 : ℚ) by norm_num] at h
  exact h

lemma floor_millisDelta1 (millis : ℚ) :
    ⌊millisDelta1 millis⌋ = totalSecs millis % 86400 := by
  have h : ((millisDays millis : ℚ) * 86400) = (((millisDays millis * 86400 : ℤ)) : ℚ) := by
    push_cast; ring
  rw [millisDelta1, h, Int.floor_sub_int, millisDays_eq]
  rw [show ⌊millisDelta0 millis⌋ = totalSecs millis from rfl]
  omega

lemma millisHoursRaw_eq (millis : ℚ) (hm : 0 ≤ millis) :
    millisHoursRaw millis = totalSecs millis % 86400 / 3600 := by
  have h := floor_div_pos_int (millisDelta1 millis) 3600 (by norm_num)
  rw [show ((3600 : ℤ) : ℚ) = (3600 : ℚ) by norm_num] at h
  have hT : 0 ≤ totalSecs millis := by
    have : (0 : ℚ) ≤ millis / 1000 := by positivity
    exact Int.floor_nonneg.2 this
  rw [millisHoursRaw, jsMod, h, floor_millisDelta1]
  have hb : 0 ≤ totalSecs millis % 86400 / 3600 ∧ totalSecs millis % 86400 / 3600 < 24 := by
    omega
  rw [Int.tmod_eq_emod hb.1 (by norm_num)]
  omega

lemma floor_millisDelta2 (millis : ℚ) (hm : 0 ≤ millis) :
    ⌊millisDelta2 millis⌋ = totalSecs millis % 3600 := by
  have h : ((millisHoursRaw millis : ℚ) * 3600) = (((millisHoursRaw millis * 3600 : ℤ)) : ℚ) := by
    push_cast; ring
  rw [millisDelta2, h, Int.floor_sub_int, floor_millisDelta1, millisHoursRaw_eq millis hm]
  omega

lemma millisMinutesRaw_eq (millis : ℚ) (hm : 0 ≤ millis) :
    millisMinutesRaw millis = totalSecs millis % 3600 / 60 := by
  have h := floor_div_pos_int (millisDelta2 millis) 60 (by norm_num)
  rw [show ((60 : ℤ) : ℚ) = (60 : ℚ) by norm_num] at h
  rw [millisMinutesRaw, jsMod, h, floor_millisDelta2 millis hm]
  have hb : 0 ≤ totalSecs millis % 3600 / 60 ∧ totalSecs millis % 3600 / 60 < 60 := by omega
  rw [Int.tmod_eq_emod hb.1 (by norm_num)]
  omega

lemma floor_millisDelta3 (millis : ℚ) (hm : 0 ≤ millis) :
    ⌊millisDelta3 millis⌋ = totalSecs millis % 60 := by
  have h : ((millisMinutesRaw millis : ℚ) * 60) = (((millisMinutesRaw millis * 60 : ℤ)) : ℚ) := by
    push_cast; ring
  rw [millisDelta3, h, Int.floor_sub_int, floor_millisDelta2 millis hm,
    millisMinutesRaw_eq millis hm]
  omega

lemma millisSecondsRaw_eq (millis : ℚ) (hm : 0 ≤ millis) :
    millisSecondsRaw millis = totalSecs millis % 60 := by
  rw [millisSecondsRaw, jsMod, floor_millisDelta3 millis hm]
  have hb : 0 ≤ totalSecs millis % 60 := by omega
  rw [Int.tmod_eq_emod hb (by norm_num)]
  omega

lemma millisHoursRaw_bounds (millis : ℚ) (hm : 0 ≤ millis) :
    0 ≤ millisHoursRaw millis ∧ millisHoursRaw millis < 24 := by
  rw [millisHoursRaw_eq millis hm]
  have hT : 0 ≤ totalSecs millis := by
    have : (0 : ℚ) ≤ millis / 1000 := by positivity
    exact Int.floor_nonneg.2 this
  omega

lemma millisMinutesRaw_bounds (millis : ℚ) (hm : 0 ≤ millis) :
    0 ≤ millisMinutesRaw millis ∧ millisMinutesRaw millis < 60 := by
  rw [millisMinutesRaw_eq millis hm]
  omega

lemma millisSecondsRaw_bounds (millis : ℚ) (hm : 0 ≤ millis) :
    0 ≤ millisSecondsRaw millis ∧ millisSecondsRaw millis < 60 := by
  rw [millisSecondsRaw_eq millis hm]
  omega

/-- For non-negative input the clamps are inert and the record is exactly the
raw field values (shared helper). -/
lemma getSMH_unclamped (millis : ℚ) (hm : 0 ≤ millis) :
    getSecondsMinutesHoursFromMillis millis =
      ⟨millisSecondsRaw millis, millisMinutesRaw millis, millisHoursRaw millis,
        millisDays millis⟩ := by
  have hs := millisSecondsRaw_bounds millis hm
  have hmn := millisMinutesRaw_bounds millis hm
  have hh := millisHoursRaw_bounds millis hm
  rw [getSecondsMinutesHoursFromMillis]
  rw [if_neg (by omega), if_neg (by omega), if_neg (by omega)]

/-- For non-negative input the implementation agrees with the spec's
decomposition algorithm (shared helper for several claims). -/
lemma getSecondsMinutesHoursFromMillis_eq_spec (millis : ℚ) (hm : 0 ≤ millis) :
    getSecondsMinutesHoursFromMillis millis = specTimeDecomposition millis := by
  have e1 := millisSecondsRaw_eq millis hm
  have e2 := millisMinutesRaw_eq millis hm
  have e3 := millisHoursRaw_eq millis hm
  have e4 := millisDays_eq millis
  simp only [totalSecs] at e1 e2 e3 e4
  rw [getSMH_unclamped millis hm]
  simp only [specTimeDecomposition, Timing.mk.injEq]
  exact ⟨by omega, by omega, by omega, by omega⟩

/-- C7: for every non-negative millisecond input the pre-clamp seconds value
is below 60, the minutes value below 60 and the hours value below 24, so the
clamp branches in `getSecondsMinutesHoursFromMillis` are unreachable and the
returned record equals the unclamped one. -/
theorem claim_C7_clamp_unreachable (millis : ℚ) (hm : 0 ≤ millis) :
    millisSecondsRaw millis < 60 ∧ millisMinutesRaw millis < 60 ∧
      millisHoursRaw millis < 24 ∧
      getSecondsMinutesHoursFromMillis millis =
        ⟨millisSecondsRaw millis, millisMinutesRaw millis, millisHoursRaw millis,
          millisDays millis⟩ := by
  have hs := millisSecondsRaw_bounds millis hm
  have hmn := millisMinutesRaw_bounds millis hm
  have hh := millisHoursRaw_bounds millis hm
  exact ⟨hs.2, hmn.2, hh.2, getSMH_unclamped millis hm⟩

theorem claim_C7_witness :
    (0 : ℚ) ≤ 90061500 ∧
      (millisSecondsRaw 90061500 < 60 ∧ millisMinutesRaw 90061500 < 60 ∧
        millisHoursRaw 90061500 < 24 ∧
        getSecondsMinutesHoursFromMillis 90061500 =
          ⟨millisSecondsRaw 90061500, millisMinutesRaw 90061500, millisHoursRaw 90061500,
            millisDays 90061500⟩) :=
  ⟨by norm_num, claim_C7_clamp_unreachable 90061500 (by norm_num)⟩

/-- C8: the implementation follows the spec's decomposition algorithm (whole
seconds, then days = delta/86400, hours = remaining/3600 mod 24, minutes =
remaining/60 mod 60, seconds = remainder mod 60) for every non-negative
input; in particular 90,061,000 ms decomposes to 1 day, 1 hour, 1 minute,
1 second and 0 ms decomposes to all-zero fields. -/
theorem claim_C8_decomposition_algorithm :
    getSecondsMinutesHoursFromMillis 90061000 = ⟨1, 1, 1, 1⟩ ∧
      getSecondsMinutesHoursFromMillis 0 = ⟨0, 0, 0, 0⟩ ∧
      ∀ millis : ℚ, 0 ≤ millis →
        getSecondsMinutesHoursFromMillis millis = specTimeDecomposition millis := by
  refine ⟨?_, ?_, fun millis hm => getSecondsMinutesHoursFromMillis_eq_spec millis hm⟩
  · rw [getSecondsMinutesHoursFromMillis_eq_spec 90061000 (by norm_num)]
    simp only [specTimeDecomposition]
    rw [show (90061000 : ℚ) / 1000 = ((90061 : ℤ) : ℚ) by norm_num, Int.floor_intCast]
    decide
  · rw [getSecondsMinutesHoursFromMillis_eq_spec 0 (by norm_num)]
    simp only [specTimeDecomposition]
    rw [show (0 : ℚ) / 1000 = ((0 : ℤ) : ℚ) by norm_num, Int.floor_intCast]
    decide

theorem claim_C8_witness :
    (0 : ℚ) ≤ 5500 ∧ getSecondsMinutesHoursFromMillis 5500 = specTimeDecomposition 5500 :=
  ⟨by norm_num, claim_C8_decomposition_algorithm.2.2 5500 (by norm_num)⟩

/-- C10: for every non-negative whole multiple of 1000 milliseconds the
returned fields recompose exactly to the whole-second count
`millis / 1000`. -/
theorem claim_C10_recomposition (n : ℕ) :
    (getSecondsMinutesHoursFromMillis (1000 * (n : ℚ))).days * 86400 +
      (getSecondsMinutesHoursFromMillis (1000 * (n : ℚ))).hours * 3600 +
      (getSecondsMinutesHoursFromMillis (1000 * (n : ℚ))).minutes * 60 +
      (getSecondsMinutesHoursFromMillis (1000 * (n : ℚ))).seconds = (n : ℤ) := by
  rw [getSecondsMinutesHoursFromMillis_eq_spec (1000 * (n : ℚ)) (by positivity)]
  simp only [specTimeDecomposition]
  rw [show (1000 * (n : ℚ)) / 1000 = ((n : ℤ) : ℚ) by push_cast; ring, Int.floor_intCast]
  omega

/-- `firstZkeyIndex` (lib/constants.ts line 21). -/
def firstZkeyIndex : String := "00000"

/-- The `while (index.length < firstZkeyIndex.length) index = "0" + index`
loop of `formatZkeyIndex` (utils.ts lines 414-416). -/
def formatZkeyIndexLoop (index : String) : String :=
  if h : index.length < firstZkeyIndex.length then
    formatZkeyIndexLoop ("0" ++ index)
  else index
termination_by firstZkeyIndex.length - index.length
decreasing_by
  have h1 : ("0" ++ index).length = index.length + 1 := by
    rw [String.length_append, show ("0" : String).length = 1 from rfl]; omega
  have h5 : firstZkeyIndex.length = 5 := rfl
  rw [h1, h5]
  rw [h5] at h
  omega

/-- `formatZkeyIndex` (utils.ts lines 411-419): decimal rendering of the
progress number, zero-padded on the left up to the width of
`firstZkeyIndex`. -/
def formatZkeyIndex (progress : Nat) : String := formatZkeyIndexLoop (toString progress)

lemma formatZkeyIndexLoop_of_ge (s : String) (h : firstZkeyIndex.length ≤ s.length) :
    formatZkeyIndexLoop s = s := by
  rw [formatZkeyIndexLoop.eq_def]
  rw [dif_neg (Nat.not_lt.2 h)]

/-- C9: `formatZkeyIndex` zero-pads the decimal index to the width of the
ceremony's first index (5): index 3 formats as "00003"; index 100000 stays
"100000"; and in general any index whose decimal rendering is already at
least 5 characters wide is returned unchanged, never truncated. -/
theorem claim_C9_format_zkey_index :
    formatZkeyIndex 3 = "00003" ∧ formatZkeyIndex 100000 = "100000" ∧
      ∀ n : Nat, firstZkeyIndex.length ≤ (toString n).length →
        formatZkeyIndex n = toString n := by
  refine ⟨?_, ?_, fun n hn => formatZkeyIndexLoop_of_ge (toString n) hn⟩
  · show formatZkeyIndexLoop (toString 3) = "00003"
    rw [show toString 3 = "3" from rfl]
    rw [formatZkeyIndexLoop.eq_def, dif_pos (by decide),
      show ("0" ++ "3" : String) = "03" from rfl]
    rw [formatZkeyIndexLoop.eq_def, dif_pos (by decide),
      show ("0" ++ "03" : String) = "003" from rfl]
    rw [formatZkeyIndexLoop.eq_def, dif_pos (by decide),
      show ("0" ++ "003" : String) = "0003" from rfl]
    rw [formatZkeyIndexLoop.eq_def, dif_pos (by decide),
      show ("0" ++ "0003" : String) = "00003" from rfl]
    exact formatZkeyIndexLoop_of_ge "00003" (by decide)
  · show formatZkeyIndexLoop (toString 100000) = "100000"
    rw [show toString 100000 = "100000" from rfl]
    exact formatZkeyIndexLoop_of_ge "100000" (by decide)

theorem claim_C9_witness :
    firstZkeyIndex.length ≤ (toString 123456).length ∧
      formatZkeyIndex 123456 = toString 123456 :=
  ⟨by decide, claim_C9_format_zkey_index.2.2 123456 (by decide)⟩

/-- Modelled from the spec: the `ParticipantContributionStep` enumeration is
declared in `packages/phase2cli/src/types/index.ts`, which is not among the
sources; spec §3 lists its values as NOT_STARTED, DOWNLOADING, COMPUTING,
UPLOADING, VERIFYING, COMPLETED.  The values are non-empty strings, so every
value is JavaScript-truthy. -/
inductive ParticipantContributionStep where
  | NOT_STARTED
  | DOWNLOADING
  | COMPUTING
  | UPLOADING
  | VERIFYING
  | COMPLETED
deriving DecidableEq, Repr

/-- Position of a step in the spec §3 ordering, used to state the
"at-or-before" relation of claim C1. -/
def stepIdx : ParticipantContributionStep → Nat
  | .NOT_STARTED => 0
  | .DOWNLOADING => 1
  | .COMPUTING => 2
  | .UPLOADING => 3
  | .VERIFYING => 4
  | .COMPLETED => 5

/-- One recorded chunk of a resumable multi-part upload:
`{ ETag, PartNumber }` (see §6 of the spec: `{partNumber, completionToken}`). -/
structure ChunkRecord where
  partNumber : Nat
  eTag : String
deriving DecidableEq, Repr

/-- The persisted temporary contribution data
`{uploadId: string, chunks: [...]}` read back from the checkpoint authority
(spec §6).  `uploadId` is optional because the loosely-typed JavaScript bag
may lack the field. -/
structure TempContributionData where
  uploadId : Option String
  chunks : List ChunkRecord
deriving DecidableEq, Repr

/-- JavaScript truthiness of an optional string field: `undefined` and the
empty string are falsy. -/
def jsTruthyOptStr : Option String → Bool
  | none => false
  | some s => s != ""

/-- The two fields of the participant document that `makeContribution`
consults: `contributionStep` and `tempContributionData`. -/
structure ParticipantData where
  contributionStep : Option ParticipantContributionStep
  tempContributionData : Option TempContributionData
deriving DecidableEq, Repr

/-- Errors surfaced through `showError(_, true)` (fatal process exit). -/
inductive CliError where
  | contributionHashInvalid
  | notConfiguredProperly
deriving DecidableEq, Repr

/-- Externally observable actions of `makeContribution`, in call order:
`download` is the `downloadContribution` call, `advance m` is the
`makeContributionStepProgress(_, _, _, m)` call (which invokes the
`progressToNextContributionStep` cloud function), `compute` is the
`computeContribution` call, `storeHash h` is the
`permanentlyStoreCurrentContributionTimeAndHash` call with hash `h`,
`upload temp cf` is the `multiPartUpload` call receiving the temporary
session data `temp` and (`cf`) whether the two temporary-store callbacks are
passed, `verify` is the `computeVerification` call. -/
inductive Event where
  | download
  | advance (message : String)
  | compute
  | storeHash (hash : String)
  | upload (temp : Option TempContributionData) (withStoreCFs : Bool)
  | verify
deriving DecidableEq, Repr

/-- JavaScript `String.prototype.replace` with a plain-string pattern:
replaces only the first occurrence. -/
def replaceFirst (s pat rep : String) : String :=
  match s.splitOn pat with
  | [] => s
  | [x] => x
  | x :: rest => x ++ rep ++ String.intercalate pat rest

/-- Guard of step 1 (utils.ts lines 958-962):
`finalize || (!!step && step === DOWNLOADING)`. -/
def downloadStepCondition (finalize : Bool)
    (step : Option ParticipantContributionStep) : Bool :=
  finalize || (step.isSome && step == some .DOWNLOADING)

/-- Guard of step 2 (utils.ts lines 983-988). -/
def computeStepCondition (finalize : Bool)
    (step : Option ParticipantContributionStep) : Bool :=
  finalize || (step.isSome && step == some .DOWNLOADING) || step == some .COMPUTING

/-- Guard of step 3 (utils.ts lines 1054-1060). -/
def uploadStepCondition (finalize : Bool)
    (step : Option ParticipantContributionStep) : Bool :=
  finalize || (step.isSome && step == some .DOWNLOADING) || step == some .COMPUTING ||
    step == some .UPLOADING

/-- Guard of step 4 (utils.ts lines 1119-1126). -/
def verifyStepCondition (finalize : Bool)
    (step : Option ParticipantContributionStep) : Bool :=
  finalize || (step.isSome && step == some .DOWNLOADING) || step == some .COMPUTING ||
    step == some .UPLOADING || step == some .VERIFYING

/-- The environment of one `makeContribution` run: `transcriptMatch` is the
result of `transcript.match(/Contribution.+Hash.+.../)` on the transcript the
compute call produced (`none` when the pattern is absent). -/
structure ContributionEnv where
  transcriptMatch : Option String
deriving DecidableEq, Repr

/-- `makeContribution` (utils.ts lines 919-1170) as a trace-producing
function.  External calls are emitted as events; `showError(_, true)` is a
fatal abort carried in the second component.  Step 1 emits `download` and,
when not finalizing, `advance "computation"` (lines 963-981); step 2 emits
`compute`, then either aborts with `contributionHashInvalid` when the
transcript pattern has no match (line 1019) or emits `storeHash` (lines
1023-1032) and `advance "upload"` (line 1051); step 3 emits `upload` with
the participant's `tempContributionData` and the temporary-store callbacks
when not finalizing, with neither otherwise (lines 1072-1102), then
`advance "verification"` (line 1111); step 4 emits `verify` (lines
1127-1134) and advances nothing. -/
def makeContribution (finalize : Bool) (newParticipantData : Option ParticipantData)
    (env : ContributionEnv) : List Event × Option CliError :=
  let step := newParticipantData.bind (·.contributionStep)
  let dlEvents : List Event :=
    if downloadStepCondition finalize step then
      Event.download :: (if finalize then [] else [Event.advance "computation"])
    else []
  let upEvents : List Event :=
    if uploadStepCondition finalize step then
      (if finalize then Event.upload none false
        else Event.upload (newParticipantData.bind (·.tempContributionData)) true) ::
        (if finalize then [] else [Event.advance "verification"])
    else []
  let vfEvents : List Event :=
    if verifyStepCondition finalize step then [Event.verify] else []
  if computeStepCondition finalize step then
    match env.transcriptMatch with
    | none => (dlEvents ++ [Event.compute], some CliError.contributionHashInvalid)
    | some m =>
        (dlEvents ++
          (Event.compute :: Event.storeHash (replaceFirst m "\n\t\t" "") ::
            (if finalize then [] else [Event.advance "upload"])) ++
          upEvents ++ vfEvents, none)
  else (dlEvents ++ upEvents ++ vfEvents, none)

/-- The shape of an event, used to state which steps run and in which
order. -/
inductive EventKind where
  | kDownload
  | kAdvance
  | kCompute
  | kStoreHash
  | kUpload
  | kVerify
deriving DecidableEq, Repr

def Event.kind : Event → EventKind
  | .download => .kDownload
  | .advance _ => .kAdvance
  | .compute => .kCompute
  | .storeHash _ => .kStoreHash
  | .upload _ _ => .kUpload
  | .verify => .kVerify

def Event.isAdvance : Event → Bool
  | .advance _ => true
  | _ => false

/-- The amended gating relation: a step runs iff `finalize` is set, or the
checkpoint step is at-or-after DOWNLOADING and at-or-before the step's own
phase (spec §3 ordering via `stepIdx`). -/
def specStepExecutes (finalize : Bool) (cps target : ParticipantContributionStep) : Bool :=
  finalize ||
    (stepIdx .DOWNLOADING ≤ stepIdx cps && stepIdx cps ≤ stepIdx target)

/-- The event-kind trace the amended claim C1 predicts for a successful
run. -/
def specTraceKinds (finalize : Bool) (cps : ParticipantContributionStep) : List EventKind :=
  (if specStepExecutes finalize cps .DOWNLOADING then
    .kDownload :: (if finalize then [] else [.kAdvance]) else []) ++
  (if specStepExecutes finalize cps .COMPUTING then
    .kCompute :: .kStoreHash :: (if finalize then [] else [.kAdvance]) else []) ++
  (if specStepExecutes finalize cps .UPLOADING then
    .kUpload :: (if finalize then [] else [.kAdvance]) else []) ++
  (if specStepExecutes finalize cps .VERIFYING then [.kVerify] else [])

/-- C1 (counterexample): with the checkpoint at NOT_STARTED and
`finalize = false`, NOT_STARTED is at-or-before DOWNLOADING, yet the run
executes nothing at all — the emitted trace is empty, so in particular the
download step does not run, refuting the claimed "if and only if". -/
theorem claim_C1_counterexample :
    stepIdx .NOT_STARTED ≤ stepIdx .DOWNLOADING ∧
      (makeContribution false
        (some ⟨some .NOT_STARTED, none⟩) ⟨some "hash"⟩).1 = [] := by
  constructor
  · decide
  · decide

/-- C1 (amended): a step of a successful run executes iff `finalize` is true
or the checkpoint step lies between DOWNLOADING and that step's phase
(inclusive); the executed steps, with their checkpoint advances, occur in
download-compute-upload-verify order.  Stated as: the event-kind trace of
`makeContribution` equals the gated sequence `specTraceKinds`. -/
theorem claim_C1_amended (finalize : Bool) (cps : ParticipantContributionStep)
    (temp : Option TempContributionData) (env : ContributionEnv) (m : String)
    (h : env.transcriptMatch = some m) :
    (makeContribution finalize (some ⟨some cps, temp⟩) env).1.map Event.kind =
        specTraceKinds finalize cps ∧
      (makeContribution finalize (some ⟨some cps, temp⟩) env).2 = none := by
  obtain ⟨tm⟩ := env
  simp only at h
  subst h
  cases finalize <;> cases cps <;>
    simp [makeContribution, specTraceKinds, specStepExecutes, downloadStepCondition,
      computeStepCondition, uploadStepCondition, verifyStepCondition, stepIdx, Event.kind]

theorem claim_C1_witness :
    (ContributionEnv.mk (some "hash")).transcriptMatch = some "hash" ∧
      ((makeContribution false (some ⟨some .DOWNLOADING, none⟩)
          ⟨some "hash"⟩).1.map Event.kind =
        specTraceKinds false .DOWNLOADING ∧
      (makeContribution false (some ⟨some .DOWNLOADING, none⟩) ⟨some "hash"⟩).2 = none) :=
  ⟨rfl, claim_C1_amended false .DOWNLOADING none ⟨some "hash"⟩ "hash" rfl⟩

/-- C2: resuming with the checkpoint at UPLOADING and `finalize = false`
performs exactly the upload (receiving the persisted temporary upload
session and the store callbacks), the advance request, and the verification
— no download and no compute call. -/
theorem claim_C2_resume_at_uploading (temp : Option TempContributionData)
    (env : ContributionEnv) :
    makeContribution false (some ⟨some .UPLOADING, temp⟩) env =
      ([Event.upload temp true, Event.advance "verification", Event.verify], none) := rfl

/-- C5: in a successful run with `finalize = false` the checkpoint authority
is asked to advance exactly once after each executed step of
download/compute/upload (the `"computation"`, `"upload"` and
`"verification"` progress requests, whose server side moves the step to
COMPUTING, UPLOADING and VERIFYING respectively); with `finalize = true` no
advance request is ever made; and the verify step issues no further advance
— whenever `verify` appears it is the last event of the trace. -/
theorem claim_C5_checkpoint_advances (finalize : Bool)
    (cps : ParticipantContributionStep) (temp : Option TempContributionData)
    (env : ContributionEnv) (m : String) (h : env.transcriptMatch = some m) :
    (finalize = true →
      (makeContribution finalize (some ⟨some cps, temp⟩) env).1.filter Event.isAdvance = []) ∧
    (finalize = false →
      (makeContribution finalize (some ⟨some cps, temp⟩) env).1.filter Event.isAdvance =
        (if Event.download ∈ (makeContribution finalize (some ⟨some cps, temp⟩) env).1 then
          [Event.advance "computation"] else []) ++
        (if Event.compute ∈ (makeContribution finalize (some ⟨some cps, temp⟩) env).1 then
          [Event.advance "upload"] else []) ++
        (if (makeContribution finalize (some ⟨some cps, temp⟩) env).1.any
            (fun e => e.kind == .kUpload) then
          [Event.advance "verification"] else [])) ∧
    (Event.verify ∈ (makeContribution finalize (some ⟨some cps, temp⟩) env).1 →
      (makeContribution finalize (some ⟨some cps, temp⟩) env).1.getLast? =
        some Event.verify) := by
  obtain ⟨tm⟩ := env
  simp only at h
  subst h
  cases finalize <;> cases cps <;>
    simp [makeContribution, downloadStepCondition, computeStepCondition,
      uploadStepCondition, verifyStepCondition, Event.isAdvance, Event.kind,
      List.filter, List.getLast?]

theorem claim_C5_witness :
    (ContributionEnv.mk (some "hx")).transcriptMatch = some "hx" ∧
      ((false : Bool) = true →
        (makeContribution false (some ⟨some .COMPUTING, none⟩)
          ⟨some "hx"⟩).1.filter Event.isAdvance = []) ∧
      ((false : Bool) = false →
        (makeContribution false (some ⟨some .COMPUTING, none⟩)
            ⟨some "hx"⟩).1.filter Event.isAdvance =
          (if Event.download ∈ (makeContribution false (some ⟨some .COMPUTING, none⟩)
              ⟨some "hx"⟩).1 then [Event.advance "computation"] else []) ++
          (if Event.compute ∈ (makeContribution false (some ⟨some .COMPUTING, none⟩)
              ⟨some "hx"⟩).1 then [Event.advance "upload"] else []) ++
          (if (makeContribution false (some ⟨some .COMPUTING, none⟩)
              ⟨some "hx"⟩).1.any (fun e => e.kind == .kUpload) then
            [Event.advance "verification"] else [])) ∧
      (Event.verify ∈ (makeContribution false (some ⟨some .COMPUTING, none⟩)
          ⟨some "hx"⟩).1 →
        (makeContribution false (some ⟨some .COMPUTING, none⟩)
            ⟨some "hx"⟩).1.getLast? = some Event.verify) :=
  ⟨rfl, claim_C5_checkpoint_advances false .COMPUTING none ⟨some "hx"⟩ "hx" rfl⟩

/-- C6: whenever the compute step runs, a transcript with no match of the
contribution-hash pattern makes the run abort with the fatal
data-integrity error (`GENERIC_CONTRIBUTION_HASH_INVALID`), never reaching
verification; and a transcript with a match makes the run store the
extracted fingerprint (the match with its first `"\n\t\t"` removed) and
finish without error. -/
theorem claim_C6_transcript_hash (finalize : Bool) (pd : Option ParticipantData)
    (env : ContributionEnv)
    (hc : computeStepCondition finalize (pd.bind (·.contributionStep)) = true) :
    (env.transcriptMatch = none →
      (makeContribution finalize pd env).2 = some CliError.contributionHashInvalid ∧
        Event.verify ∉ (makeContribution finalize pd env).1) ∧
    (∀ m, env.transcriptMatch = some m →
      (makeContribution finalize pd env).2 = none ∧
        Event.storeHash (replaceFirst m "\n\t\t" "") ∈ (makeContribution finalize pd env).1) := by
  constructor
  · intro hm
    simp only [makeContribution, hc, if_true, hm]
    constructor
    · trivial
    · split <;> simp
  · intro m hm
    simp only [makeContribution, hc, if_true, hm]
    constructor
    · trivial
    · simp

theorem claim_C6_witness :
    computeStepCondition false
        ((some (ParticipantData.mk (some .COMPUTING) none)).bind (·.contributionStep)) = true ∧
      (makeContribution false (some ⟨some .COMPUTING, none⟩) ⟨none⟩).2 =
        some CliError.contributionHashInvalid ∧
      Event.storeHash (replaceFirst "MatchedHash" "\n\t\t" "") ∈
        (makeContribution false (some ⟨some .COMPUTING, none⟩) ⟨some "MatchedHash"⟩).1 :=
  ⟨by decide,
    ((claim_C6_transcript_hash false (some ⟨some .COMPUTING, none⟩) ⟨none⟩ (by decide)).1
      rfl).1,
    ((claim_C6_transcript_hash false (some ⟨some .COMPUTING, none⟩) ⟨some "MatchedHash"⟩
      (by decide)).2 "MatchedHash" rfl).2⟩

/-- Externally observable actions of `multiPartUpload`, in call order:
`openUpload` is the `openMultiPartUpload` call, `persistUploadId` the
`temporaryStoreCurrentContributionMultiPartUploadId` call, `authorize` the
`getChunksAndPreSignedUrls` call (pre-signed URL generation, one request
covering the listed part numbers), `transmit` the PUT of one chunk,
`persistChunk` the `temporaryStoreCurrentContributionUploadedChunkData`
call, `finalizeUpload` the `closeMultiPartUpload` call with its upload id
and part list. -/
inductive UpEvent where
  | openUpload
  | persistUploadId (uploadId : String)
  | authorize (uploadId : String) (partNumbers : List Nat)
  | transmit (partNumber : Nat)
  | persistChunk (chunk : ChunkRecord)
  | finalizeUpload (uploadId : String) (parts : List ChunkRecord)
deriving DecidableEq, Repr

def UpEvent.isTransmit : UpEvent → Bool
  | .transmit _ => true
  | _ => false

def UpEvent.isPersistUploadId : UpEvent → Bool
  | .persistUploadId _ => true
  | _ => false

/-- Environment of one `multiPartUpload` invocation:
`cfgExpirationSet` is the truthiness of
`process.env.CONFIG_PRESIGNED_URL_EXPIRATION_IN_SECONDS` (utils.ts line
281), `freshUploadId` the identifier a new `openMultiPartUpload` call would
return, `numParts` the number of chunks the local file splits into
(spec §4.2: `ceil(size / partSize)`), and `eTagOf` the completion token the
remote storage returns for transmitting a given part. -/
structure UploadEnv where
  cfgExpirationSet : Bool
  freshUploadId : String
  numParts : Nat
  eTagOf : Nat → String

/-- Modelled from the spec: `uploadParts` lives in
`packages/phase2cli/src/lib/storage.ts`, which is not among the sources.
Spec §4.2 step 3: transmit each authorized part's byte range; on success
record `(partNumber, completionToken)`; already-recorded parts (from the
prior attempt, `alreadyUploadedChunks`) are not re-transmitted.  Returns the
emitted events and the newly recorded chunks, in part order. -/
def uploadParts (env : UploadEnv) (storeChunkCF : Bool)
    (alreadyUploadedChunks : List ChunkRecord) :
    List Nat → List UpEvent × List ChunkRecord
  | [] => ([], [])
  | pn :: rest =>
    let r := uploadParts env storeChunkCF alreadyUploadedChunks rest
    if pn ∈ alreadyUploadedChunks.map ChunkRecord.partNumber then r
    else
      (UpEvent.transmit pn ::
          ((if storeChunkCF then [UpEvent.persistChunk ⟨pn, env.eTagOf pn⟩] else []) ++ r.1),
        ⟨pn, env.eTagOf pn⟩ :: r.2)

/-- `multiPartUpload` (utils.ts lines 268-351).  The first `if` models the
configuration check of line 281 (fatal `showError`).  Lines 293-312: when no
temporary data is supplied, or it lacks a truthy `uploadId`, a fresh
transfer session is opened and — only when the
`temporaryStoreCurrentContributionMultiPartUploadId` callback was passed —
the fresh id is persisted; otherwise the stored `uploadId` and `chunks` are
reused and no session is opened.  Lines 314-326: `getChunksAndPreSignedUrls`
is modelled from the spec §6 interface
`authorizeParts(uploadId, bucket, key, localPath, expirationSeconds)`; it
receives no session data, so the authorization request covers every part
`1..numParts` of the file.  Lines 329-335: `uploadParts` with the already
uploaded chunks.  Lines 341-348: `closeMultiPartUpload` with the accumulated
part list (the stored chunks followed by the newly recorded ones). -/
def multiPartUpload (storeUploadIdCF storeChunkCF : Bool)
    (tempContributionData : Option TempContributionData) (env : UploadEnv) :
    List UpEvent × Option CliError :=
  if env.cfgExpirationSet = false then ([], some CliError.notConfiguredProperly)
  else
    let freshStart : Bool :=
      match tempContributionData with
      | none => true
      | some t => !(jsTruthyOptStr t.uploadId)
    let uploadIdZkey : String :=
      if freshStart then env.freshUploadId
      else (tempContributionData.bind TempContributionData.uploadId).getD ""
    let alreadyUploadedChunks : List ChunkRecord :=
      if freshStart then []
      else
        match tempContributionData with
        | some t => t.chunks
        | none => []
    let openEvts : List UpEvent :=
      if freshStart then
        UpEvent.openUpload ::
          (if storeUploadIdCF then [UpEvent.persistUploadId env.freshUploadId] else [])
      else []
    let partNumbers : List Nat := List.range' 1 env.numParts
    let r := uploadParts env storeChunkCF alreadyUploadedChunks partNumbers
    (openEvts ++ [UpEvent.authorize uploadIdZkey partNumbers] ++ r.1 ++
      [UpEvent.finalizeUpload uploadIdZkey (alreadyUploadedChunks ++ r.2)], none)

lemma uploadParts_snd (env : UploadEnv) (sc : Bool) (a : List ChunkRecord) :
    ∀ l : List Nat, (uploadParts env sc a l).2 =
      (l.filter (fun pn => pn ∉ a.map ChunkRecord.partNumber)).map
        (fun pn => ChunkRecord.mk pn (env.eTagOf pn))
  | [] => rfl
  | pn :: rest => by
    have ih := uploadParts_snd env sc a rest
    simp only [uploadParts]
    by_cases h : pn ∈ a.map ChunkRecord.partNumber
    · rw [if_pos h, ih, List.filter_cons, if_neg (by simp [h])]
    · rw [if_neg h]
      show ChunkRecord.mk pn (env.eTagOf pn) :: (uploadParts env sc a rest).2 = _
      rw [ih, List.filter_cons, if_pos (by simp [h]), List.map_cons]

lemma uploadParts_fst_filter (env : UploadEnv) (sc : Bool) (a : List ChunkRecord) :
    ∀ l : List Nat, (uploadParts env sc a l).1.filter UpEvent.isTransmit =
      (l.filter (fun pn => pn ∉ a.map ChunkRecord.partNumber)).map UpEvent.transmit
  | [] => rfl
  | pn :: rest => by
    have ih := uploadParts_fst_filter env sc a rest
    simp only [uploadParts]
    by_cases h : pn ∈ a.map ChunkRecord.partNumber
    · rw [if_pos h, ih, List.filter_cons, if_neg (by simp [h])]
    · rw [if_neg h]
      show List.filter UpEvent.isTransmit (UpEvent.transmit pn ::
        ((if sc = true then [UpEvent.persistChunk ⟨pn, env.eTagOf pn⟩] else []) ++
          (uploadParts env sc a rest).1)) = _
      have hposT : UpEvent.isTransmit (UpEvent.transmit pn) = true := rfl
      have hchunks : List.filter UpEvent.isTransmit
          (if sc = true then [UpEvent.persistChunk ⟨pn, env.eTagOf pn⟩] else []) = [] := by
        cases sc <;> rfl
      rw [List.filter_cons, hposT, if_pos rfl, List.filter_append, hchunks,
        List.nil_append, ih, List.filter_cons, if_pos (by simp [h]), List.map_cons]

lemma uploadParts_mem_shape (env : UploadEnv) (sc : Bool) (a : List ChunkRecord) :
    ∀ l : List Nat, ∀ e ∈ (uploadParts env sc a l).1,
      (∃ pn, e = UpEvent.transmit pn) ∨ ∃ c, e = UpEvent.persistChunk c
  | [] => by intro e he; simp [uploadParts] at he
  | pn :: rest => by
    have ih := uploadParts_mem_shape env sc a rest
    intro e he
    simp only [uploadParts] at he
    by_cases h : pn ∈ a.map ChunkRecord.partNumber
    · rw [if_pos h] at he
      exact ih e he
    · rw [if_neg h] at he
      rcases List.mem_cons.1 he with rfl | he2
      · exact Or.inl ⟨pn, rfl⟩
      · rcases List.mem_append.1 he2 with hin | hin
        · cases sc
          · simp at hin
          · simp at hin
            exact Or.inr ⟨_, hin⟩
        · exact ih e hin

lemma transmit_mem_uploadParts (env : UploadEnv) (sc : Bool) (a : List ChunkRecord) :
    ∀ (l : List Nat) (pn : Nat), UpEvent.transmit pn ∈ (uploadParts env sc a l).1 ↔
      (pn ∈ l ∧ pn ∉ a.map ChunkRecord.partNumber)
  | [], pn => by simp [uploadParts]
  | q :: rest, pn => by
    have ih := transmit_mem_uploadParts env sc a rest pn
    simp only [uploadParts]
    by_cases h : q ∈ a.map ChunkRecord.partNumber
    · rw [if_pos h, ih]
      constructor
      · exact fun hh => ⟨List.mem_cons_of_mem _ hh.1, hh.2⟩
      · rintro ⟨hq, hnot⟩
        rcases List.mem_cons.1 hq with rfl | hq
        · exact absurd h hnot
        · exact ⟨hq, hnot⟩
    · rw [if_neg h]
      constructor
      · intro hmem
        rcases List.mem_cons.1 hmem with heq | hmem2
        · have : pn = q := by cases heq; rfl
          subst this
          exact ⟨List.mem_cons_self _ _, h⟩
        · rcases List.mem_append.1 hmem2 with hin | hin
          · exfalso
            cases sc <;> simp at hin
          · obtain ⟨hl, hr⟩ := ih.1 hin
            exact ⟨List.mem_cons_of_mem _ hl, hr⟩
      · rintro ⟨hq, hnot⟩
        rcases List.mem_cons.1 hq with rfl | hq
        · exact List.mem_cons_self _ _
        · exact List.mem_cons_of_mem _ (List.mem_append_right _ (ih.2 ⟨hq, hnot⟩))

lemma range'_filter_not_mem (N K : Nat) (hK : K ≤ N) :
    (List.range' 1 N).filter (fun pn => pn ∉ List.range' 1 K) =
      List.range' (K + 1) (N - K) := by
  have hsplit : List.range' 1 N = List.range' 1 K ++ List.range' (1 + K) (N - K) := by
    rw [List.range'_append_1]
    congr 1
    omega
  rw [hsplit, List.filter_append]
  have h1 : (List.range' 1 K).filter (fun pn => pn ∉ List.range' 1 K) = [] := by
    rw [List.filter_eq_nil_iff]
    intro a ha
    simp only [decide_eq_true_eq, Decidable.not_not]
    exact ha
  have h2 : (List.range' (1 + K) (N - K)).filter (fun pn => pn ∉ List.range' 1 K) =
      List.range' (1 + K) (N - K) := by
    rw [List.filter_eq_self]
    intro a ha
    rw [List.mem_range'] at ha
    obtain ⟨i, hi, rfl⟩ := ha
    simp only [decide_eq_true_eq]
    rw [List.mem_range']
    rintro ⟨j, hj, hij⟩
    omega
  rw [h1, h2, Nat.add_comm 1 K]
  rfl

lemma multiPartUpload_resume (storeUploadIdCF storeChunkCF : Bool)
    (t : TempContributionData) (env : UploadEnv)
    (hcfg : env.cfgExpirationSet = true) (ht : jsTruthyOptStr t.uploadId = true) :
    multiPartUpload storeUploadIdCF storeChunkCF (some t) env =
      ([UpEvent.authorize (t.uploadId.getD "") (List.range' 1 env.numParts)] ++
        (uploadParts env storeChunkCF t.chunks (List.range' 1 env.numParts)).1 ++
        [UpEvent.finalizeUpload (t.uploadId.getD "")
          (t.chunks ++
            (uploadParts env storeChunkCF t.chunks (List.range' 1 env.numParts)).2)],
        none) := by
  rw [multiPartUpload.eq_def, if_neg (by rw [hcfg]; simp)]
  simp [ht]

lemma multiPartUpload_fresh (storeUploadIdCF storeChunkCF : Bool)
    (temp : Option TempContributionData) (env : UploadEnv)
    (hcfg : env.cfgExpirationSet = true)
    (hfresh : ∀ t, temp = some t → jsTruthyOptStr t.uploadId = false) :
    multiPartUpload storeUploadIdCF storeChunkCF temp env =
      ((UpEvent.openUpload ::
          (if storeUploadIdCF then [UpEvent.persistUploadId env.freshUploadId] else [])) ++
        [UpEvent.authorize env.freshUploadId (List.range' 1 env.numParts)] ++
        (uploadParts env storeChunkCF [] (List.range' 1 env.numParts)).1 ++
        [UpEvent.finalizeUpload env.freshUploadId
          ([] ++ (uploadParts env storeChunkCF [] (List.range' 1 env.numParts)).2)],
        none) := by
  rw [multiPartUpload.eq_def, if_neg (by rw [hcfg]; simp)]
  cases temp with
  | none => simp
  | some t => simp [hfresh t rfl]

/-- C3 (counterexample): resuming with part 1 of 2 already recorded in the
session, the run still issues a pre-signed-URL transfer-authorization
request covering part 1 — `multiPartUpload` passes no session data to
`getChunksAndPreSignedUrls`, so recorded parts are re-authorized,
contradicting "neither re-authorized". -/
theorem claim_C3_counterexample :
    UpEvent.authorize "upld" [1, 2] ∈
        (multiPartUpload true true
          (some ⟨some "upld", [⟨1, "etag1"⟩]⟩)
          ⟨true, "freshId", 2, fun _ => "etag2"⟩).1 ∧
      (1 : Nat) ∈ [1, 2] := by
  constructor
  · decide
  · decide

/-- C3 (amended): resuming an upload with parts 1..K of N recorded, the
recorded parts are not re-transmitted — exactly the N−K missing parts are
transmitted, in ascending order — and the finalize call receives all N parts
sorted by part number ascending; however a transfer authorization is
requested for all N parts (the authorization call receives no session data),
and no new session is opened. -/
theorem claim_C3_amended (N K : Nat) (storeChunkCF : Bool) (uid : String)
    (already : List ChunkRecord) (env : UploadEnv)
    (hcfg : env.cfgExpirationSet = true) (hN : env.numParts = N) (hK : K ≤ N)
    (huid : uid ≠ "")
    (hpn : already.map ChunkRecord.partNumber = List.range' 1 K) :
    (multiPartUpload true storeChunkCF (some ⟨some uid, already⟩) env).2 = none ∧
    (multiPartUpload true storeChunkCF (some ⟨some uid, already⟩) env).1.filter
        UpEvent.isTransmit =
      (List.range' (K + 1) (N - K)).map UpEvent.transmit ∧
    ((multiPartUpload true storeChunkCF (some ⟨some uid, already⟩) env).1.filter
        UpEvent.isTransmit).length = N - K ∧
    UpEvent.authorize uid (List.range' 1 N) ∈
      (multiPartUpload true storeChunkCF (some ⟨some uid, already⟩) env).1 ∧
    UpEvent.openUpload ∉
      (multiPartUpload true storeChunkCF (some ⟨some uid, already⟩) env).1 ∧
    ∃ parts : List ChunkRecord,
      (multiPartUpload true storeChunkCF (some ⟨some uid, already⟩) env).1.getLast? =
          some (UpEvent.finalizeUpload uid parts) ∧
        parts.map ChunkRecord.partNumber = List.range' 1 N ∧ parts.length = N := by
  have ht : jsTruthyOptStr (TempContributionData.mk (some uid) already).uploadId = true := by
    simp [jsTruthyOptStr, huid]
  have hres := multiPartUpload_resume true storeChunkCF ⟨some uid, already⟩ env hcfg ht
  have hgetD : ((TempContributionData.mk (some uid) already).uploadId).getD "" = uid := rfl
  rw [hgetD] at hres
  have hchunks : (TempContributionData.mk (some uid) already).chunks = already := rfl
  rw [hchunks] at hres
  have hfilter : (List.range' 1 N).filter
      (fun pn => pn ∉ already.map ChunkRecord.partNumber) =
        List.range' (K + 1) (N - K) := by
    rw [hpn]
    exact range'_filter_not_mem N K hK
  have hup1 := uploadParts_fst_filter env storeChunkCF already (List.range' 1 env.numParts)
  have hup2 := uploadParts_snd env storeChunkCF already (List.range' 1 env.numParts)
  rw [hN] at hres hup1 hup2
  rw [hfilter] at hup1 hup2
  refine ⟨by rw [hres], ?_, ?_, ?_, ?_, ?_⟩
  · rw [hres]
    simp only [List.filter_append, hup1]
    rw [show List.filter UpEvent.isTransmit [UpEvent.authorize uid (List.range' 1 N)] = []
        from rfl,
      show List.filter UpEvent.isTransmit
        [UpEvent.finalizeUpload uid
          (already ++ (uploadParts env storeChunkCF already (List.range' 1 N)).2)] = []
        from rfl]
    simp
  · rw [hres]
    simp only [List.filter_append, hup1]
    rw [show List.filter UpEvent.isTransmit [UpEvent.authorize uid (List.range' 1 N)] = []
        from rfl,
      show List.filter UpEvent.isTransmit
        [UpEvent.finalizeUpload uid
          (already ++ (uploadParts env storeChunkCF already (List.range' 1 N)).2)] = []
        from rfl]
    simp
  · rw [hres]
    simp
  · rw [hres]
    intro hmem
    simp only [List.mem_append, List.mem_singleton] at hmem
    rcases hmem with (hmem | hmem) | hmem
    · cases hmem
    · rcases uploadParts_mem_shape env storeChunkCF already _ _ hmem with ⟨pn, hpn2⟩ | ⟨c, hc⟩
      · cases hpn2
      · cases hc
    · cases hmem
  · refine ⟨already ++ (uploadParts env storeChunkCF already (List.range' 1 N)).2,
      ?_, ?_, ?_⟩
    · rw [hres]
      exact List.getLast?_concat _
    · rw [List.map_append, hpn, hup2, List.map_map]
      rw [show (ChunkRecord.partNumber ∘ fun pn => ChunkRecord.mk pn (env.eTagOf pn)) =
        id from rfl]
      rw [List.map_id]
      have happ := List.range'_append_1 1 K (N - K)
      rw [show 1 + K = K + 1 by omega] at happ
      rw [happ]
      congr 1
      omega
    · rw [List.length_append, hup2, List.length_map, List.length_range']
      have hlen := congrArg List.length hpn
      rw [List.length_map, List.length_range'] at hlen
      omega

theorem claim_C3_witness :
    (multiPartUpload true true (some ⟨some "u1", [⟨1, "t1"⟩]⟩)
        ⟨true, "f", 2, fun _ => "e"⟩).2 = none ∧
    (multiPartUpload true true (some ⟨some "u1", [⟨1, "t1"⟩]⟩)
        ⟨true, "f", 2, fun _ => "e"⟩).1.filter UpEvent.isTransmit =
      (List.range' (1 + 1) (2 - 1)).map UpEvent.transmit ∧
    ((multiPartUpload true true (some ⟨some "u1", [⟨1, "t1"⟩]⟩)
        ⟨true, "f", 2, fun _ => "e"⟩).1.filter UpEvent.isTransmit).length = 2 - 1 ∧
    UpEvent.authorize "u1" (List.range' 1 2) ∈
      (multiPartUpload true true (some ⟨some "u1", [⟨1, "t1"⟩]⟩)
        ⟨true, "f", 2, fun _ => "e"⟩).1 ∧
    UpEvent.openUpload ∉
      (multiPartUpload true true (some ⟨some "u1", [⟨1, "t1"⟩]⟩)
        ⟨true, "f", 2, fun _ => "e"⟩).1 ∧
    ∃ parts : List ChunkRecord,
      (multiPartUpload true true (some ⟨some "u1", [⟨1, "t1"⟩]⟩)
          ⟨true, "f", 2, fun _ => "e"⟩).1.getLast? =
        some (UpEvent.finalizeUpload "u1" parts) ∧
      parts.map ChunkRecord.partNumber = List.range' 1 2 ∧ parts.length = 2 :=
  claim_C3_amended 2 1 true "u1" [⟨1, "t1"⟩] ⟨true, "f", 2, fun _ => "e"⟩
    rfl rfl (by decide) (by decide) (by decide)

/-- C4 (counterexample): an invocation with no existing session but without
the temporary-store callback (exactly how `makeContribution` calls
`multiPartUpload` when finalizing, utils.ts lines 1095-1102) opens a new
transfer session yet never persists the fresh uploadId, refuting the claimed
"opens and immediately persists iff no session / no uploadId". -/
theorem claim_C4_counterexample :
    UpEvent.openUpload ∈
        (multiPartUpload false false none ⟨true, "freshId", 1, fun _ => "etag"⟩).1 ∧
      (multiPartUpload false false none
          ⟨true, "freshId", 1, fun _ => "etag"⟩).1.filter UpEvent.isPersistUploadId = [] := by
  constructor
  · decide
  · decide

/-- C4 (amended): a new transfer session is opened iff no existing session is
supplied or the supplied session lacks a truthy uploadId; in that case the
fresh uploadId is persisted iff additionally the uploadId-store callback was
supplied (it is whenever not finalizing); otherwise the stored uploadId and
the stored chunk list are reused without opening a session: transmission
skips exactly the stored chunks, the authorization and finalize calls carry
the stored uploadId, and the finalize part list extends the stored chunk
list. -/
theorem claim_C4_amended (storeUploadIdCF storeChunkCF : Bool)
    (temp : Option TempContributionData) (env : UploadEnv)
    (hcfg : env.cfgExpirationSet = true) :
    (UpEvent.openUpload ∈ (multiPartUpload storeUploadIdCF storeChunkCF temp env).1 ↔
      ∀ t, temp = some t → jsTruthyOptStr t.uploadId = false) ∧
    ((∃ s, UpEvent.persistUploadId s ∈
        (multiPartUpload storeUploadIdCF storeChunkCF temp env).1) ↔
      ((∀ t, temp = some t → jsTruthyOptStr t.uploadId = false) ∧
        storeUploadIdCF = true)) ∧
    (∀ t, temp = some t → jsTruthyOptStr t.uploadId = true →
      (∀ pn, UpEvent.transmit pn ∈
          (multiPartUpload storeUploadIdCF storeChunkCF temp env).1 ↔
        (pn ∈ List.range' 1 env.numParts ∧
          pn ∉ t.chunks.map ChunkRecord.partNumber)) ∧
      UpEvent.authorize (t.uploadId.getD "") (List.range' 1 env.numParts) ∈
        (multiPartUpload storeUploadIdCF storeChunkCF temp env).1 ∧
      ∃ parts, (multiPartUpload storeUploadIdCF storeChunkCF temp env).1.getLast? =
          some (UpEvent.finalizeUpload (t.uploadId.getD "") parts) ∧
        t.chunks <+: parts) := by
  by_cases hF : ∀ t, temp = some t → jsTruthyOptStr t.uploadId = false
  · have hres := multiPartUpload_fresh storeUploadIdCF storeChunkCF temp env hcfg hF
    refine ⟨?_, ?_, ?_⟩
    · rw [hres]
      simp only [iff_true_intro hF, iff_true]
      exact List.mem_append_left _ (List.mem_append_left _
        (List.mem_append_left _ (List.mem_cons_self _ _)))
    · rw [hres]
      cases storeUploadIdCF
      · constructor
        · rintro ⟨s, hs⟩
          exfalso
          simp only [Bool.false_eq_true, if_false, List.append_nil, List.mem_append,
            List.mem_singleton, List.mem_cons, List.not_mem_nil, or_false] at hs
          rcases hs with ((hs | hs) | hs) | hs
          · cases hs
          · cases hs
          · rcases uploadParts_mem_shape env storeChunkCF [] _ _ hs with ⟨pn, h1⟩ | ⟨c, h1⟩
            · cases h1
            · cases h1
          · cases hs
        · rintro ⟨-, hfalse⟩
          exact absurd hfalse (by simp)
      · simp only [if_pos rfl]
        constructor
        · intro _
          exact ⟨hF, trivial⟩
        · intro _
          exact ⟨env.freshUploadId,
            List.mem_append_left _ (List.mem_append_left _ (List.mem_append_left _
              (List.mem_cons_of_mem _ (List.mem_singleton.2 rfl))))⟩
    · intro t ht htruthy
      rw [hF t ht] at htruthy
      cases htruthy
  · push_neg at hF
    obtain ⟨t, ht, hne⟩ := hF
    have htruthy : jsTruthyOptStr t.uploadId = true := by
      cases hx : jsTruthyOptStr t.uploadId
      · exact absurd hx hne
      · rfl
    subst ht
    have hres := multiPartUpload_resume storeUploadIdCF storeChunkCF t env hcfg htruthy
    have hRHSfalse : ¬∀ t', some t = some t' → jsTruthyOptStr t'.uploadId = false := by
      intro hall
      rw [hall t rfl] at htruthy
      cases htruthy
    have hnotmem : ∀ e, (∀ pn, e ≠ UpEvent.transmit pn) → (∀ c, e ≠ UpEvent.persistChunk c) →
        e ≠ UpEvent.authorize (t.uploadId.getD "") (List.range' 1 env.numParts) →
        e ≠ UpEvent.finalizeUpload (t.uploadId.getD "")
          (t.chunks ++ (uploadParts env storeChunkCF t.chunks (List.range' 1 env.numParts)).2) →
        e ∉ (multiPartUpload storeUploadIdCF storeChunkCF (some t) env).1 := by
      intro e he1 he2 he3 he4 hmem
      rw [hres] at hmem
      simp only [List.mem_append, List.mem_singleton] at hmem
      rcases hmem with (hmem | hmem) | hmem
      · exact he3 hmem
      · rcases uploadParts_mem_shape env storeChunkCF t.chunks _ _ hmem with ⟨pn, h1⟩ | ⟨c, h1⟩
        · exact he1 pn h1
        · exact he2 c h1
      · exact he4 hmem
    refine ⟨?_, ?_, ?_⟩
    · simp only [iff_false_intro hRHSfalse, iff_false]
      exact hnotmem UpEvent.openUpload (fun pn h => by cases h) (fun c h => by cases h)
        (by intro h; cases h) (by intro h; cases h)
    · constructor
      · rintro ⟨s, hs⟩
        exact absurd hs (hnotmem (UpEvent.persistUploadId s) (fun pn h => by cases h)
          (fun c h => by cases h) (by intro h; cases h) (by intro h; cases h))
      · rintro ⟨hall, -⟩
        exact absurd hall hRHSfalse
    · intro t' ht' htruthy'
      have htt : t' = t := by
        injection ht' with h
        exact h.symm
      subst htt
      refine ⟨?_, ?_, ?_⟩
      · intro pn
        rw [hres]
        simp only [List.mem_append, List.mem_singleton]
        constructor
        · rintro ((hmem | hmem) | hmem)
          · cases hmem
          · exact (transmit_mem_uploadParts env storeChunkCF t'.chunks _ pn).1 hmem
          · cases hmem
        · intro hcond
          exact Or.inl (Or.inr
            ((transmit_mem_uploadParts env storeChunkCF t'.chunks _ pn).2 hcond))
      · rw [hres]
        exact List.mem_append_left _ (List.mem_append_left _ (List.mem_singleton.2 rfl))
      · refine ⟨t'.chunks ++
          (uploadParts env storeChunkCF t'.chunks (List.range' 1 env.numParts)).2, ?_, ?_⟩
        · rw [hres]
          exact List.getLast?_concat _
        · exact ⟨_, rfl⟩

theorem claim_C4_witness :
    (UpEvent.openUpload ∈
        (multiPartUpload true false none ⟨true, "fr", 1, fun _ => "e"⟩).1 ↔
      ∀ t, (none : Option TempContributionData) = some t →
        jsTruthyOptStr t.uploadId = false) ∧
    ((∃ s, UpEvent.persistUploadId s ∈
        (multiPartUpload true false none ⟨true, "fr", 1, fun _ => "e"⟩).1) ↔
      ((∀ t, (none : Option TempContributionData) = some t →
          jsTruthyOptStr t.uploadId = false) ∧ (true : Bool) = true)) ∧
    (∀ t, (none : Option TempContributionData) = some t →
      jsTruthyOptStr t.uploadId = true →
      (∀ pn, UpEvent.transmit pn ∈
          (multiPartUpload true false none ⟨true, "fr", 1, fun _ => "e"⟩).1 ↔
        (pn ∈ List.range' 1 (UploadEnv.mk true "fr" 1 (fun _ => "e")).numParts ∧
          pn ∉ t.chunks.map ChunkRecord.partNumber)) ∧
      UpEvent.authorize (t.uploadId.getD "")
          (List.range' 1 (UploadEnv.mk true "fr" 1 (fun _ => "e")).numParts) ∈
        (multiPartUpload true false none ⟨true, "fr", 1, fun _ => "e"⟩).1 ∧
      ∃ parts, (multiPartUpload true false none
            ⟨true, "fr", 1, fun _ => "e"⟩).1.getLast? =
          some (UpEvent.finalizeUpload (t.uploadId.getD "") parts) ∧
        t.chunks <+: parts) :=
  claim_C4_amended true false none ⟨true, "fr", 1, fun _ => "e"⟩ rfl
